import Mathlib

/-!
Verification development for the ai-todo repository.

The embedding covers the two source files that carry the logic the claims
speak about:

* the serverless extraction endpoint (`normalizeTask`, `pickTasks`,
  `extractTasks`, `onRequestPost` with its configuration resolution), and
* the client task store (`visibleTodos`, `handleSubmit`, `handleToggle`,
  `handleClearCompleted`, `buildTodos`, `handleAddSuggestion`,
  `handleAddAllSuggestions`).

Strings are modelled as Lean `String`s (lists of unicode scalar values);
the JavaScript regular expressions used by the source are translated
character-class by character-class.  `JSON.parse` is modelled by an
executable recursive-descent reading of the JSON grammar (`jsonParse`).
-/

namespace AiTodo

/-- Character class of JavaScript's `\s` (also the set trimmed by
`String.prototype.trim`): tab, LF, VT, FF, CR, space, NBSP, and the
Unicode space separators plus LS, PS and the BOM. -/
def isJsWs (c : Char) : Bool :=
  let n := c.toNat
  n == 0x09 || n == 0x0A || n == 0x0B || n == 0x0C || n == 0x0D || n == 0x20 ||
  n == 0xA0 || n == 0x1680 || (0x2000 ≤ n && n ≤ 0x200A) || n == 0x2028 ||
  n == 0x2029 || n == 0x202F || n == 0x205F || n == 0x3000 || n == 0xFEFF

/-- Character class of the leading-marker regex `/^[\s\-•\d\.\)\(]+/` in
`normalizeTask` / `normalizeSuggestion`: whitespace, dash, bullet, ASCII
digits, period and parentheses. -/
def isMarker (c : Char) : Bool :=
  isJsWs c || c == '-' || c == '•' || c == '.' || c == ')' || c == '(' ||
  ('0' ≤ c && c ≤ '9')

/-- Model of `.replace(/\s+/g, " ")`: every maximal run of JavaScript
whitespace becomes a single space (the run is consumed until its last
character, which is emitted as `' '`). -/
def collapseWs : List Char → List Char
  | [] => []
  | [c] => if isJsWs c then [' '] else [c]
  | c :: d :: t =>
    if isJsWs c then
      if isJsWs d then collapseWs (d :: t)
      else ' ' :: collapseWs (d :: t)
    else c :: collapseWs (d :: t)

/-- Drop the maximal trailing run of characters satisfying `p`
(used for the right half of `String.prototype.trim` and for the
`replace(/\/+$/, "")` trailing-slash strip). -/
def dropTrailing (p : Char → Bool) (l : List Char) : List Char :=
  (l.reverse.dropWhile p).reverse

/-- Character-level model of `String.prototype.trim`. -/
def trimChars (l : List Char) : List Char :=
  dropTrailing isJsWs (l.dropWhile isJsWs)

/-- Relation holding between adjacent characters of a whitespace-collapsed
list: never two whitespace characters in a row. -/
def wsApart (a b : Char) : Prop := isJsWs a = false ∨ isJsWs b = false

/-- Model of JavaScript `value.trim()`. -/
def jsTrim (s : String) : String :=
  ⟨trimChars s.data⟩

/-- Character-level body shared by `normalizeTask` (part_000 line 18) and
`normalizeSuggestion` (part_001 line 61), both of which read
`value.replace(/^[\s\-•\d\.\)\(]+/, "").replace(/\s+/g, " ").trim()`. -/
def normChars (l : List Char) : List Char :=
  trimChars (collapseWs (l.dropWhile isMarker))

/-- `normalizeTask` from the endpoint source (part_000, lines 18-19). -/
def normalizeTask (s : String) : String :=
  ⟨normChars s.data⟩

/-- `normalizeSuggestion` from the client source (part_001, lines 61-62);
its body is character-for-character the same regex chain as
`normalizeTask`. -/
def normalizeSuggestion (s : String) : String :=
  ⟨normChars s.data⟩

/-- JSON documents, as produced by `JSON.parse`.  The endpoint code only
ever inspects the *type* of a numeric value (its `pickTasks` filters keep
strings only), so a numeral is kept as its source lexeme instead of a
floating-point value. -/
inductive Json where
  | null
  | bool (b : Bool)
  | num (lexeme : String)
  | str (s : String)
  | arr (elems : List Json)
  | obj (fields : List (String × Json))

/-- Whitespace permitted by the JSON grammar between tokens. -/
def isJsonWs (c : Char) : Bool :=
  c == ' ' || c == '\t' || c == '\n' || c == '\r'

/-- Value of a hexadecimal digit character. -/
def hexVal (c : Char) : Option Nat :=
  if '0' ≤ c ∧ c ≤ '9' then some (c.toNat - '0'.toNat)
  else if 'a' ≤ c ∧ c ≤ 'f' then some (c.toNat - 'a'.toNat + 10)
  else if 'A' ≤ c ∧ c ≤ 'F' then some (c.toNat - 'A'.toNat + 10)
  else none

/-- Value of a four-digit hexadecimal escape. -/
def hex4 (a b c d : Char) : Option Nat := do
  let x ← hexVal a
  let y ← hexVal b
  let z ← hexVal c
  let w ← hexVal d
  pure (((x * 16 + y) * 16 + z) * 16 + w)

/-- Body of a JSON string after its opening quote, fuel-bounded (every
recursive step consumes at least one input character, so fuel `length + 1`
is always enough): returns the decoded characters and the remaining input
after the closing quote.  Escape sequences follow the JSON grammar; a
surrogate-pair escape is combined into one scalar value, and a lone
surrogate escape (which a Lean `Char` cannot carry) is read as U+FFFD. -/
def parseStrBodyF : Nat → List Char → Option (List Char × List Char)
  | 0, _ => none
  | _, [] => none
  | _ + 1, '"' :: rest => some ([], rest)
  | fuel + 1, '\\' :: rest =>
    match rest with
    | '"' :: r => (parseStrBodyF fuel r).map (fun p => ('"' :: p.1, p.2))
    | '\\' :: r => (parseStrBodyF fuel r).map (fun p => ('\\' :: p.1, p.2))
    | '/' :: r => (parseStrBodyF fuel r).map (fun p => ('/' :: p.1, p.2))
    | 'b' :: r => (parseStrBodyF fuel r).map (fun p => ('\x08' :: p.1, p.2))
    | 'f' :: r => (parseStrBodyF fuel r).map (fun p => ('\x0C' :: p.1, p.2))
    | 'n' :: r => (parseStrBodyF fuel r).map (fun p => ('\n' :: p.1, p.2))
    | 'r' :: r => (parseStrBodyF fuel r).map (fun p => ('\r' :: p.1, p.2))
    | 't' :: r => (parseStrBodyF fuel r).map (fun p => ('\t' :: p.1, p.2))
    | 'u' :: a :: b :: c :: d :: r =>
      match hex4 a b c d with
      | none => none
      | some n =>
        if 0xD800 ≤ n ∧ n ≤ 0xDBFF then
          match r with
          | '\\' :: 'u' :: e :: f :: g :: h :: r2 =>
            match hex4 e f g h with
            | some m =>
              if 0xDC00 ≤ m ∧ m ≤ 0xDFFF then
                (parseStrBodyF fuel r2).map (fun p =>
                  (Char.ofNat (0x10000 + (n - 0xD800) * 0x400 + (m - 0xDC00)) :: p.1, p.2))
              else (parseStrBodyF fuel r).map (fun p => ('�' :: p.1, p.2))
            | none => (parseStrBodyF fuel r).map (fun p => ('�' :: p.1, p.2))
          | _ => (parseStrBodyF fuel r).map (fun p => ('�' :: p.1, p.2))
        else if 0xDC00 ≤ n ∧ n ≤ 0xDFFF then
          (parseStrBodyF fuel r).map (fun p => ('�' :: p.1, p.2))
        else
          (parseStrBodyF fuel r).map (fun p => (Char.ofNat n :: p.1, p.2))
    | _ => none
  | fuel + 1, c :: rest =>
    if c.toNat < 0x20 then none
    else (parseStrBodyF fuel rest).map (fun p => (c :: p.1, p.2))

/-- String body reading with its canonical (always sufficient) fuel. -/
def parseStrBody (l : List Char) : Option (List Char × List Char) :=
  parseStrBodyF (l.length + 1) l

/-- Longest leading run of ASCII digits, and the rest. -/
def spanDigits (l : List Char) : List Char × List Char :=
  (l.takeWhile (fun c => '0' ≤ c && c ≤ '9'),
   l.dropWhile (fun c => '0' ≤ c && c ≤ '9'))

/-- Optional exponent part of a JSON number. -/
def parseExpPart (acc : List Char) (l : List Char) : Option (List Char × List Char) :=
  match l with
  | c :: r =>
    if c == 'e' || c == 'E' then
      let (sgn, r1) :=
        match r with
        | '+' :: r2 => (['+'], r2)
        | '-' :: r2 => (['-'], r2)
        | _ => (([] : List Char), r)
      match spanDigits r1 with
      | ([], _) => none
      | (ds, rest) => some (acc ++ c :: (sgn ++ ds), rest)
    else some (acc, l)
  | [] => some (acc, l)

/-- Optional fraction part of a JSON number, then the exponent part. -/
def parseFracExp (acc : List Char) (l : List Char) : Option (List Char × List Char) :=
  match l with
  | '.' :: r =>
    match spanDigits r with
    | ([], _) => none
    | (ds, rest) => parseExpPart (acc ++ '.' :: ds) rest
  | _ => parseExpPart acc l

/-- Lexeme of a JSON number at the head of the input, per the JSON
number grammar (`-? (0 | [1-9][0-9]*) frac? exp?`). -/
def parseNumLex (l : List Char) : Option (List Char × List Char) :=
  let (sign, l1) :=
    match l with
    | '-' :: r => ((['-'] : List Char), r)
    | _ => (([] : List Char), l)
  match l1 with
  | '0' :: r => parseFracExp (sign ++ ['0']) r
  | c :: r =>
    if '1' ≤ c ∧ c ≤ '9' then
      let (ds, rest) := spanDigits r
      parseFracExp (sign ++ c :: ds) rest
    else none
  | [] => none

mutual

/-- One JSON value at the head of the input (leading JSON whitespace
allowed), fuel-bounded. -/
def parseJsonVal : Nat → List Char → Option (Json × List Char)
  | 0, _ => none
  | fuel + 1, input =>
    match input.dropWhile isJsonWs with
    | 'n' :: 'u' :: 'l' :: 'l' :: r => some (.null, r)
    | 't' :: 'r' :: 'u' :: 'e' :: r => some (.bool true, r)
    | 'f' :: 'a' :: 'l' :: 's' :: 'e' :: r => some (.bool false, r)
    | '"' :: r => (parseStrBody r).map (fun p => (.str ⟨p.1⟩, p.2))
    | '[' :: r =>
      match r.dropWhile isJsonWs with
      | ']' :: r2 => some (.arr [], r2)
      | _ => (parseArrItems fuel r).map (fun p => (.arr p.1, p.2))
    | '{' :: r =>
      match r.dropWhile isJsonWs with
      | '}' :: r2 => some (.obj [], r2)
      | _ => (parseObjItems fuel r).map (fun p => (.obj p.1, p.2))
    | l' => (parseNumLex l').map (fun p => (.num ⟨p.1⟩, p.2))

/-- Comma-separated values of a non-empty JSON array, up to the closing
bracket. -/
def parseArrItems : Nat → List Char → Option (List Json × List Char)
  | 0, _ => none
  | fuel + 1, input =>
    match parseJsonVal fuel input with
    | none => none
    | some (v, r) =>
      match r.dropWhile isJsonWs with
      | ',' :: r2 => (parseArrItems fuel r2).map (fun p => (v :: p.1, p.2))
      | ']' :: r2 => some ([v], r2)
      | _ => none

/-- Comma-separated members of a non-empty JSON object, up to the closing
brace. -/
def parseObjItems : Nat → List Char → Option (List (String × Json) × List Char)
  | 0, _ => none
  | fuel + 1, input =>
    match input.dropWhile isJsonWs with
    | '"' :: r =>
      match parseStrBody r with
      | none => none
      | some (k, r1) =>
        match r1.dropWhile isJsonWs with
        | ':' :: r2 =>
          match parseJsonVal fuel r2 with
          | none => none
          | some (v, r3) =>
            match r3.dropWhile isJsonWs with
            | ',' :: r4 => (parseObjItems fuel r4).map (fun p => ((⟨k⟩, v) :: p.1, p.2))
            | '}' :: r4 => some ([(⟨k⟩, v)], r4)
            | _ => none
        | _ => none
    | _ => none

end

/-- Model of `JSON.parse`: parse one value, allow trailing whitespace,
reject trailing garbage.  The fuel `2 * length + 8` over-approximates the
recursion depth: at least one input character is consumed for every two
units of fuel spent. -/
def jsonParse (s : String) : Option Json :=
  match parseJsonVal (2 * s.length + 8) s.data with
  | some (v, rest) => if rest.dropWhile isJsonWs = [] then some v else none
  | none => none

/-- Last field with the given key (`JSON.parse` keeps the last of
duplicate keys when building an object). -/
def lastField (fields : List (String × Json)) (k : String) : Option Json :=
  ((fields.filter (fun f => f.1 == k)).getLast?).map (fun f => f.2)

/-- String-typed elements of a JSON array, in order (the
`filter((item): item is string)` calls in `pickTasks`). -/
def asStrings (xs : List Json) : List String :=
  xs.filterMap (fun v => match v with | Json.str s => some s | _ => none)

/-- `pickTasks` from part_000, lines 21-32: an array keeps its string
elements; an object keeps the string elements of its `tasks` field when
that field is an array; anything else yields nothing. -/
def pickTasks : Json → List String
  | Json.arr xs => asStrings xs
  | Json.obj fields =>
    match lastField fields "tasks" with
    | some (Json.arr xs) => asStrings xs
    | _ => []
  | _ => []

/-- Span matched by `trimmed.match(/\[[\s\S]*\]/)`.  The regex is
leftmost-greedy: the match starts at the first `'['` and the greedy
`[\s\S]*` backtracks to the last `']'` of the whole text, so the match is
the segment from the first `'['` to the last `']'` provided that `']'`
lies after the `'['` (if the last `']'` precedes the first `'['`, every
`']'` precedes every `'['` and no start position can match). -/
def bracketSpanChars (l : List Char) : Option (List Char) :=
  match l.findIdx? (fun c => c == '[') with
  | none => none
  | some i =>
    match l.reverse.findIdx? (fun c => c == ']') with
    | none => none
    | some jr =>
      let j := l.length - 1 - jr
      if i < j then some ((l.drop i).take (j - i + 1)) else none

/-- String-level wrapper of `bracketSpanChars`. -/
def bracketSpan (t : String) : Option String :=
  (bracketSpanChars t.data).map (fun cs => ⟨cs⟩)

/-- Character-level model of JavaScript `.split("\n")`: cut at every
line-feed character; `"".split("\n")` is `[""]`, and a trailing line feed
produces a trailing empty segment. -/
def splitOnNlChars : List Char → List (List Char)
  | [] => [[]]
  | '\n' :: rest => [] :: splitOnNlChars rest
  | c :: rest =>
    match splitOnNlChars rest with
    | [] => [[c]]
    | line :: more => (c :: line) :: more

/-- String-level wrapper of `splitOnNlChars`. -/
def splitNl (s : String) : List String :=
  (splitOnNlChars s.data).map (fun cs => ⟨cs⟩)

/-- Parse a text as JSON and shape it with `pickTasks`; a parse failure
yields the empty list, exactly like the `try { ... } catch {}` blocks of
`extractTasks`. -/
def tasksFromJsonText (t : String) : List String :=
  match jsonParse t with
  | some v => pickTasks v
  | none => []

/-- `extractTasks` from part_000, lines 34-65: whole-payload JSON parse
first, then the bracketed-span parse, then the line-splitting fallback
with `normalizeTask` and the truthiness filter. -/
def extractTasks (content : String) : List String :=
  let trimmed := jsTrim content
  if trimmed = "" then []
  else if tasksFromJsonText trimmed ≠ [] then tasksFromJsonText trimmed
  else
    let spanTasks :=
      match bracketSpan trimmed with
      | some sub => tasksFromJsonText sub
      | none => []
    if spanTasks ≠ [] then spanTasks
    else ((splitNl trimmed).map normalizeTask).filter (fun s => s ≠ "")

/-- Post-processing applied by `onRequestPost` (part_000, lines 124-127):
`extractTasks(content).map(normalizeTask).filter(Boolean).slice(0, 12)`. -/
def finalTasks (content : String) : List String :=
  (((extractTasks content).map normalizeTask).filter (fun s => s ≠ "")).take 12

/-! ### The endpoint `onRequestPost` (part_000, lines 67-130) -/

/-- Bindings of the Cloudflare Pages environment (part_000, lines 1-6);
an absent variable is `none`. -/
structure Env where
  DOUBAO_API_KEY : Option String
  DOUBAO_API_BASE_URL : Option String
  DOUBAO_MODEL : Option String
  ARK_API_KEY : Option String

/-- `DEFAULT_MODEL` from part_000 line 8. -/
def DEFAULT_MODEL : String := "doubao-seed-1-8-251228"

/-- The fixed fallback provider base URL (part_000 line 83). -/
def DEFAULT_BASE_URL : String := "https://ark.cn-beijing.volces.com/api/v3"

/-- Property access `v[k]` on a JSON value: only objects have data
properties (JSON arrays and primitives have no own property named by the
keys this code reads). -/
def getField : Json → String → Option Json
  | Json.obj fields, k => lastField fields k
  | _, _ => none

/-- Index access `v?.[i]`: arrays index their elements, objects coerce
the index to a string key, strings yield a one-character string. -/
def getIdx : Json → Nat → Option Json
  | Json.arr xs, i => xs[i]?
  | Json.obj fields, i => lastField fields (toString i)
  | Json.str s, i => (s.data[i]?).map (fun c => Json.str ⟨[c]⟩)
  | _, _ => none

/-- The reads `typeof body?.k === "string" ? body.k.trim() : ""` used for
`prompt`, `apiKey` and `model` (part_000, lines 69-71). -/
def providedField (body : Option Json) (k : String) : String :=
  match body.bind (fun v => getField v k) with
  | some (Json.str s) => jsTrim s
  | _ => ""

/-- JavaScript `a || b` on strings, where the empty string (and an absent
value, collapsed to `""` by `optStr`) is falsy. -/
def jsOr (a b : String) : String :=
  if a = "" then b else a

/-- An optional environment value as a JavaScript-truthiness string:
`undefined` and `""` behave identically in every use the endpoint makes
of them. -/
def optStr (o : Option String) : String :=
  o.getD ""

/-- `providedKey || env.DOUBAO_API_KEY || env.ARK_API_KEY`
(part_000 line 77). -/
def resolveApiKey (body : Option Json) (env : Env) : String :=
  jsOr (providedField body "apiKey")
    (jsOr (optStr env.DOUBAO_API_KEY) (optStr env.ARK_API_KEY))

/-- `providedModel || env.DOUBAO_MODEL || DEFAULT_MODEL`
(part_000 line 82). -/
def resolveModel (body : Option Json) (env : Env) : String :=
  jsOr (providedField body "model")
    (jsOr (optStr env.DOUBAO_MODEL) DEFAULT_MODEL)

/-- `.replace(/\/+$/, "")` (part_000 line 84): remove the maximal
trailing run of slashes. -/
def stripTrailingSlashes (s : String) : String :=
  ⟨dropTrailing (fun c => c == '/') s.data⟩

/-- The resolved base URL (part_000 lines 83-84). -/
def resolveBaseUrl (env : Env) : String :=
  stripTrailingSlashes (jsOr (optStr env.DOUBAO_API_BASE_URL) DEFAULT_BASE_URL)

/-- The URL the provider is called at: the template literal appending
`/chat/completions` to the stripped base URL (part_000 line 103). -/
def requestUrl (env : Env) : String :=
  resolveBaseUrl env ++ "/chat/completions"

/-- Ordered coalesce: the first non-empty string of the list, as the
specification describes layered configuration resolution. -/
def coalesce : List String → String
  | [] => ""
  | s :: rest => if s = "" then coalesce rest else s

/-- Result of the single `fetch` to the provider: either a network-level
failure (the promise rejects) or a response with an `ok` flag and a body
text. -/
inductive Upstream where
  | netFail
  | reply (ok : Bool) (bodyText : String)

/-- JSON bodies the endpoint can answer with (the `json(...)` helper,
part_000 lines 10-16). -/
inductive RespBody where
  | err (msg : String)
  | errText (msg : String) (detail : String)
  | errJson (msg : String) (detail : Option Json)
  | tasks (ts : List String)

/-- Observable outcome of one `onRequestPost` invocation: an HTTP
response, or an uncaught exception escaping the handler. -/
inductive Outcome where
  | resp (status : Nat) (body : RespBody)
  | exn

/-- `data?.choices?.[0]?.message?.content` when it is a string
(part_000 lines 118-120); `data` is `null` when the upstream body did not
parse. -/
def getContent (data : Option Json) : Option String :=
  match ((data.bind (fun v => getField v "choices")).bind
      (fun v => getIdx v 0)).bind
      (fun v => getField v "message") |>.bind (fun v => getField v "content") with
  | some (Json.str s) => some s
  | _ => none

/-- `onRequestPost` (part_000, lines 67-130).  The request body is the
parsed JSON of the request (`null`, i.e. `none`, when parsing failed);
`up` is the oracle for the single upstream `fetch`.  The `fetch` has no
surrounding `try`, so a network-level rejection escapes the handler
(`Outcome.exn`).  The resolved model and URL (`resolveModel`,
`requestUrl`) parameterize that `fetch` and are studied separately. -/
def onRequestPost (body : Option Json) (env : Env) (up : Upstream) : Outcome :=
  let prompt := providedField body "prompt"
  if prompt = "" then .resp 400 (.err "请提供有效的任务描述。")
  else if resolveApiKey body env = "" then
    .resp 400 (.err "请在页面填写 API Key 或配置 DOUBAO_API_KEY。")
  else
    match up with
    | .netFail => .exn
    | .reply ok respText =>
      if ok then
        match getContent (jsonParse respText) with
        | some content => .resp 200 (.tasks (finalTasks content))
        | none => .resp 502 (.errJson "豆包返回内容为空。" (jsonParse respText))
      else .resp 502 (.errText "豆包接口请求失败。" respText)

/-- Whether an outcome is an error *response* handed to the caller (as
opposed to an uncaught exception). -/
def isErrResp (o : Outcome) : Bool :=
  match o with
  | .resp status _ => decide (status ≠ 200)
  | .exn => false

/-! ### The client task store (part_001) -/

/-- The `Filter` union type (part_001 line 3). -/
inductive TodoFilter where
  | all
  | active
  | done

/-- The `Todo` record (part_001, lines 5-10). -/
structure Todo where
  id : String
  text : String
  done : Bool
  createdAt : Nat
deriving DecidableEq

/-- `visibleTodos` (part_001, lines 94-102): the list filtered by the
current filter; `active` keeps `!done`, `done` keeps `done`, `all` keeps
everything. -/
def visibleTodos (filt : TodoFilter) (todos : List Todo) : List Todo :=
  todos.filter fun t =>
    match filt with
    | TodoFilter.active => !t.done
    | TodoFilter.done => t.done
    | TodoFilter.all => true

/-- `handleSubmit` (part_001, lines 104-118): reject blank input,
otherwise prepend a fresh not-done record. -/
def handleSubmit (input : String) (freshId : String) (now : Nat)
    (todos : List Todo) : List Todo :=
  let trimmed := jsTrim input
  if trimmed = "" then todos
  else { id := freshId, text := trimmed, done := false, createdAt := now } :: todos

/-- `handleToggle` (part_001, lines 120-124). -/
def handleToggle (id : String) (todos : List Todo) : List Todo :=
  todos.map fun t => if t.id = id then { t with done := !t.done } else t

/-- `handleDelete` (part_001, lines 126-128). -/
def handleDelete (id : String) (todos : List Todo) : List Todo :=
  todos.filter fun t => t.id != id

/-- `handleClearCompleted` (part_001, lines 130-132). -/
def handleClearCompleted (todos : List Todo) : List Todo :=
  todos.filter fun t => !t.done

/-- The final `.map((text, index) => ({...}))` of `buildTodos`: build one
record per surviving text, with the running index feeding both the id
generator and the `createdAt` offset. -/
def mkRecords (freshId : Nat → String) (now : Nat) : Nat → List String → List Todo
  | _, [] => []
  | i, text :: rest =>
    { id := freshId i, text := text, done := false, createdAt := now + i }
      :: mkRecords freshId now (i + 1) rest

/-- `buildTodos` (part_001, lines 134-147): normalize each accepted
suggestion, drop the ones that become empty, drop the ones whose text is
already in the list, and build fresh records (`createId()` is modelled by
the generator `freshId`, one call per element as in the source `map`,
with collision-freedom an assumption of the source). -/
def buildTodos (todos : List Todo) (items : List String)
    (freshId : Nat → String) (now : Nat) : List Todo :=
  let existing := todos.map (fun t => t.text)
  mkRecords freshId now 0
    (((items.map normalizeSuggestion).filter (fun s => s ≠ "")).filter
      (fun item => !(existing.contains item)))

/-- `handleAddSuggestion` (part_001, lines 214-223), restricted to its
effect on the todo list (the suggestion-list and status updates are
UI state). -/
def handleAddSuggestion (todos : List Todo) (task : String)
    (freshId : Nat → String) (now : Nat) : List Todo :=
  let nextTodos := buildTodos todos [task] freshId now
  if nextTodos = [] then todos else nextTodos ++ todos

/-- `handleAddAllSuggestions` (part_001, lines 225-234), restricted to
its effect on the todo list. -/
def handleAddAllSuggestions (todos : List Todo) (suggestions : List String)
    (freshId : Nat → String) (now : Nat) : List Todo :=
  let nextTodos := buildTodos todos suggestions freshId now
  if nextTodos = [] then todos else nextTodos ++ todos

/-! ### Helper lemmas: `dropWhile`, `dropTrailing`, `collapseWs` -/

theorem head?_dropWhile_not (p : Char → Bool) :
    ∀ (l : List Char) (c : Char), (l.dropWhile p).head? = some c → p c = false := by
  intro l
  induction l with
  | nil => intro c h; simp at h
  | cons a t ih =>
    intro c h
    by_cases hp : p a
    · rw [List.dropWhile_cons] at h
      simp only [hp, if_true] at h
      exact ih c h
    · rw [List.dropWhile_cons] at h
      simp only [hp, if_false, Bool.false_eq_true, List.head?_cons, Option.some.injEq] at h
      subst h
      simpa using hp

theorem dropWhile_eq_self_of_head (p : Char → Bool) (l : List Char)
    (h : ∀ c, l.head? = some c → p c = false) : l.dropWhile p = l := by
  cases l with
  | nil => rfl
  | cons a t => simp [List.dropWhile_cons, h a rfl]

theorem mem_of_mem_dropWhile (p : Char → Bool) (l : List Char) (x : Char)
    (h : x ∈ l.dropWhile p) : x ∈ l :=
  List.Sublist.mem h (List.dropWhile_sublist _)

theorem chain'_dropWhile {R : Char → Char → Prop} (p : Char → Bool) :
    ∀ (l : List Char), l.Chain' R → (l.dropWhile p).Chain' R := by
  intro l
  induction l with
  | nil => intro h; exact h
  | cons a t ih =>
    intro h
    by_cases hp : p a
    · rw [List.dropWhile_cons]
      simpa only [hp, if_true] using ih h.tail
    · rw [List.dropWhile_cons]
      simpa only [hp, if_false] using h

theorem dropTrailing_append (p : Char → Bool) (l : List Char) :
    l = dropTrailing p l ++ (l.reverse.takeWhile p).reverse := by
  calc l = l.reverse.reverse := (List.reverse_reverse l).symm
    _ = (l.reverse.takeWhile p ++ l.reverse.dropWhile p).reverse := by
          rw [List.takeWhile_append_dropWhile]
    _ = dropTrailing p l ++ (l.reverse.takeWhile p).reverse := by
          rw [List.reverse_append]; rfl

theorem getLast?_dropTrailing_not (p : Char → Bool) (l : List Char) (c : Char)
    (h : (dropTrailing p l).getLast? = some c) : p c = false := by
  have e := List.head?_reverse (l.reverse.dropWhile p).reverse
  rw [List.reverse_reverse] at e
  rw [dropTrailing] at h
  rw [← e] at h
  exact head?_dropWhile_not p l.reverse c h

theorem dropTrailing_eq_self (p : Char → Bool) (l : List Char)
    (h : ∀ c, l.getLast? = some c → p c = false) : dropTrailing p l = l := by
  rw [dropTrailing, dropWhile_eq_self_of_head, List.reverse_reverse]
  intro c hc
  exact h c (by rwa [List.head?_reverse] at hc)

theorem chain'_dropTrailing {R : Char → Char → Prop} (p : Char → Bool) (l : List Char)
    (h : l.Chain' R) : (dropTrailing p l).Chain' R := by
  rw [dropTrailing, List.chain'_reverse]
  apply chain'_dropWhile
  rw [List.chain'_reverse]
  exact h

theorem mem_of_mem_dropTrailing (p : Char → Bool) (l : List Char) (x : Char)
    (h : x ∈ dropTrailing p l) : x ∈ l := by
  rw [dropTrailing, List.mem_reverse] at h
  have h2 := mem_of_mem_dropWhile p l.reverse x h
  rwa [List.mem_reverse] at h2

theorem head?_dropTrailing (p : Char → Bool) (l : List Char) (d : Char) (t : List Char)
    (h : dropTrailing p l = d :: t) : l.head? = some d := by
  have e := dropTrailing_append p l
  rw [h] at e
  rw [e]
  simp

theorem collapseWs_cons_not (c : Char) (cs : List Char) (h : isJsWs c = false) :
    collapseWs (c :: cs) = c :: collapseWs cs := by
  cases cs with
  | nil => simp [collapseWs, h]
  | cons d t => simp [collapseWs, h]

theorem collapseWs_ws_mem :
    ∀ (l : List Char), ∀ c ∈ collapseWs l, isJsWs c = true → c = ' ' := by
  intro l
  induction l with
  | nil => simp [collapseWs]
  | cons a t ih =>
    intro c hc hws
    cases t with
    | nil =>
      by_cases h : isJsWs a
      · simp [collapseWs, h] at hc
        exact hc
      · simp [collapseWs, h] at hc
        subst hc
        simp at h
        rw [h] at hws
        cases hws
    | cons d t2 =>
      by_cases h : isJsWs a
      · by_cases hd : isJsWs d
        · rw [show collapseWs (a :: d :: t2) = collapseWs (d :: t2) by
            simp [collapseWs, h, hd]] at hc
          exact ih c hc hws
        · rw [show collapseWs (a :: d :: t2) = ' ' :: collapseWs (d :: t2) by
            simp [collapseWs, h, hd]] at hc
          rcases List.mem_cons.mp hc with h1 | h1
          · exact h1
          · exact ih c h1 hws
      · rw [collapseWs_cons_not a (d :: t2) (by simpa using h)] at hc
        rcases List.mem_cons.mp hc with h1 | h1
        · subst h1
          simp at h
          rw [h] at hws
          cases hws
        · exact ih c h1 hws

theorem chain'_collapseWs : ∀ (l : List Char), (collapseWs l).Chain' wsApart := by
  intro l
  induction l with
  | nil => simp [collapseWs]
  | cons a t ih =>
    cases t with
    | nil =>
      by_cases h : isJsWs a <;> simp [collapseWs, h]
    | cons d t2 =>
      by_cases h : isJsWs a
      · by_cases hd : isJsWs d
        · rw [show collapseWs (a :: d :: t2) = collapseWs (d :: t2) by
            simp [collapseWs, h, hd]]
          exact ih
        · rw [show collapseWs (a :: d :: t2) = ' ' :: collapseWs (d :: t2) by
            simp [collapseWs, h, hd]]
          rw [List.chain'_cons']
          refine ⟨?_, ih⟩
          intro y hy
          rw [collapseWs_cons_not d t2 (by simpa using hd)] at hy
          simp at hy
          subst hy
          exact Or.inr (by simpa using hd)
      · rw [collapseWs_cons_not a (d :: t2) (by simpa using h)]
        rw [List.chain'_cons']
        exact ⟨fun y _ => Or.inl (by simpa using h), ih⟩

theorem collapseWs_eq_self :
    ∀ (l : List Char), l.Chain' wsApart → (∀ c ∈ l, isJsWs c = true → c = ' ') →
      collapseWs l = l := by
  intro l
  induction l with
  | nil => intro _ _; rfl
  | cons a t ih =>
    intro hch hmem
    cases t with
    | nil =>
      by_cases h : isJsWs a
      · have ha : a = ' ' := hmem a (by simp) (by simpa using h)
        simp [collapseWs, h, ha]
      · simp [collapseWs, h]
    | cons d t2 =>
      have hch' : (d :: t2).Chain' wsApart := hch.tail
      have had : wsApart a d := (List.chain'_cons.mp hch).1
      by_cases h : isJsWs a
      · have hd : isJsWs d = false := by
          rcases had with h1 | h1
          · rw [h1] at h; cases h
          · exact h1
        have ha : a = ' ' := hmem a (by simp) (by simpa using h)
        rw [show collapseWs (a :: d :: t2) = ' ' :: collapseWs (d :: t2) by
          simp [collapseWs, h, hd]]
        rw [ih hch' (fun c hc hws => hmem c (by simp [hc]) hws), ha]
      · rw [collapseWs_cons_not a (d :: t2) (by simpa using h)]
        rw [ih hch' (fun c hc hws => hmem c (by simp [hc]) hws)]

theorem not_ws_of_not_marker (c : Char) (h : isMarker c = false) : isJsWs c = false := by
  rw [isMarker] at h
  simp only [Bool.or_eq_false_iff] at h
  exact h.1.1.1.1.1.1

/-- A list satisfying the four invariants the normalization pipeline
establishes is a fixed point of `normChars`. -/
theorem normChars_fixed (r : List Char)
    (hhead : ∀ c, r.head? = some c → isMarker c = false)
    (hchain : r.Chain' wsApart)
    (hmem : ∀ c ∈ r, isJsWs c = true → c = ' ')
    (hlast : ∀ c, r.getLast? = some c → isJsWs c = false) :
    normChars r = r := by
  rw [normChars, dropWhile_eq_self_of_head isMarker r hhead,
    collapseWs_eq_self r hchain hmem, trimChars,
    dropWhile_eq_self_of_head isJsWs r (fun c hc => not_ws_of_not_marker c (hhead c hc)),
    dropTrailing_eq_self isJsWs r hlast]

theorem normChars_idem (l : List Char) : normChars (normChars l) = normChars l := by
  have hmhead : ∀ c, (collapseWs (l.dropWhile isMarker)).head? = some c →
      isMarker c = false := by
    intro c hc
    cases h0 : l.dropWhile isMarker with
    | nil => rw [h0] at hc; simp [collapseWs] at hc
    | cons a t =>
      have ha : isMarker a = false :=
        head?_dropWhile_not isMarker l a (by rw [h0]; simp)
      have haw : isJsWs a = false := not_ws_of_not_marker a ha
      rw [h0, collapseWs_cons_not a t haw] at hc
      simp at hc
      subst hc
      exact ha
  have hr : normChars l = dropTrailing isJsWs (collapseWs (l.dropWhile isMarker)) := by
    rw [normChars, trimChars, dropWhile_eq_self_of_head isJsWs _
      (fun c hc => not_ws_of_not_marker c (hmhead c hc))]
  rw [hr]
  apply normChars_fixed
  · intro c hc
    cases hcase : dropTrailing isJsWs (collapseWs (l.dropWhile isMarker)) with
    | nil => rw [hcase] at hc; cases hc
    | cons d t =>
      have hd := head?_dropTrailing isJsWs (collapseWs (l.dropWhile isMarker)) d t hcase
      rw [hcase] at hc
      simp at hc
      subst hc
      exact hmhead _ hd
  · exact chain'_dropTrailing isJsWs _ (chain'_collapseWs _)
  · intro c hc hws
    exact collapseWs_ws_mem _ c (mem_of_mem_dropTrailing isJsWs _ c hc) hws
  · intro c hc
    exact getLast?_dropTrailing_not isJsWs _ c hc

/-! ### Supporting facts about the extraction pipeline -/

theorem pickTasks_arr_str (elems : List String) :
    pickTasks (Json.arr (elems.map Json.str)) = elems := by
  induction elems with
  | nil => rfl
  | cons s rest ih =>
    simp only [pickTasks, asStrings, List.map_cons, List.filterMap_cons] at ih ⊢
    rw [ih]

theorem map_eq_self_of_mem {α : Type} (l : List α) (f : α → α)
    (h : ∀ a ∈ l, f a = a) : l.map f = l := by
  induction l with
  | nil => rfl
  | cons a t ih =>
    rw [List.map_cons, h a (by simp), ih (fun b hb => h b (by simp [hb]))]

theorem jsOr_coalesce (a b c : String) : jsOr a (jsOr b c) = coalesce [a, b, c] := by
  by_cases h1 : a = "" <;> by_cases h2 : b = "" <;> by_cases h3 : c = "" <;>
    simp [jsOr, coalesce, h1, h2, h3]

/-! ### Claims -/

/-- C2: the candidate-string normalization (strip the leading run of
whitespace, dashes, bullets, digits, periods and parentheses; collapse
internal whitespace runs to single spaces; trim) is idempotent — for the
endpoint's `normalizeTask` and the client's `normalizeSuggestion` alike. -/
theorem c2_normalize_idempotent (s : String) :
    normalizeTask (normalizeTask s) = normalizeTask s ∧
    normalizeSuggestion (normalizeSuggestion s) = normalizeSuggestion s :=
  ⟨congrArg String.mk (normChars_idem s.data),
   congrArg String.mk (normChars_idem s.data)⟩

/-- C1 counterexample: the reply `"[]"` trims to itself and parses as a
JSON array of strings (zero of them), yet the full pipeline returns
`["[]"]` — the empty array falls through to the line-splitting fallback,
whose normalization does not strip square brackets — instead of the empty
list of strings the claim requires. -/
theorem c1_counterexample :
    jsonParse (jsTrim "[]") = some (Json.arr (([] : List String).map Json.str)) ∧
    finalTasks "[]" = ["[]"] :=
  ⟨rfl, rfl⟩

/-- C1 (amended: the parsed array must be non-empty): for every reply
whose entire trimmed text parses as a JSON array of strings with at least
one element, the pipeline returns exactly those strings after one pass of
`normalizeTask`, in order, entries that become empty discarded, truncated
to at most 12 entries. -/
theorem c1_amended (reply : String) (elems : List String)
    (hparse : jsonParse (jsTrim reply) = some (Json.arr (elems.map Json.str)))
    (hne : elems ≠ []) :
    finalTasks reply = ((elems.map normalizeTask).filter (fun s => s ≠ "")).take 12 := by
  have htrim : jsTrim reply ≠ "" := by
    intro h
    rw [h] at hparse
    have hnone : jsonParse "" = none := rfl
    rw [hnone] at hparse
    exact Option.noConfusion hparse
  have hw : tasksFromJsonText (jsTrim reply) = elems := by
    rw [tasksFromJsonText, hparse]
    exact pickTasks_arr_str elems
  rw [finalTasks, extractTasks]
  simp only [htrim, if_false, hw, hne, ite_not, if_neg hne]

/-- C1 witness: the specification's own example reply. -/
theorem c1_witness :
    jsonParse (jsTrim "[\"买菜\",\"预订机票\",\"  -  确认行程  \"]") =
      some (Json.arr (["买菜", "预订机票", "  -  确认行程  "].map Json.str)) ∧
    (["买菜", "预订机票", "  -  确认行程  "] : List String) ≠ [] ∧
    finalTasks "[\"买菜\",\"预订机票\",\"  -  确认行程  \"]" = ["买菜", "预订机票", "确认行程"] :=
  ⟨rfl, by decide,
    (c1_amended "[\"买菜\",\"预订机票\",\"  -  确认行程  \"]"
        ["买菜", "预订机票", "  -  确认行程  "] rfl (by decide)).trans (by decide)⟩

/-- C3: when the whole-payload JSON parse yields zero usable items and the
bracketed span (the segment from the first `[` to the last `]`, as matched
by the greedy regex) parses under the same shape rules to a non-empty list
of strings, `extractTasks` returns exactly that list. -/
theorem c3_embedded_array (reply sub : String) (ts : List String)
    (h1 : tasksFromJsonText (jsTrim reply) = [])
    (h2 : bracketSpan (jsTrim reply) = some sub)
    (h3 : tasksFromJsonText sub = ts)
    (h4 : ts ≠ []) :
    extractTasks reply = ts := by
  have htrim : jsTrim reply ≠ "" := by
    intro h
    rw [h] at h2
    have hnone : bracketSpan "" = none := rfl
    rw [hnone] at h2
    exact Option.noConfusion h2
  rw [extractTasks]
  simp only [htrim, if_false, h1, h2, h3, if_neg h4, ite_not]
  simp [h4]

/-- C3 witness: a JSON array of strings wrapped in prose commentary is
still recovered. -/
theorem c3_witness :
    tasksFromJsonText (jsTrim "以下是任务列表：[\"买菜\", \"做饭\"] 供参考") = [] ∧
    bracketSpan (jsTrim "以下是任务列表：[\"买菜\", \"做饭\"] 供参考") = some "[\"买菜\", \"做饭\"]" ∧
    extractTasks "以下是任务列表：[\"买菜\", \"做饭\"] 供参考" = ["买菜", "做饭"] :=
  ⟨rfl, rfl,
    c3_embedded_array "以下是任务列表：[\"买菜\", \"做饭\"] 供参考" "[\"买菜\", \"做饭\"]"
      ["买菜", "做饭"] rfl rfl rfl (by decide)⟩

/-- C4: when both JSON strategies yield zero items, `extractTasks` splits
the trimmed reply on line breaks and returns, in line order, one entry per
line that survives `normalizeTask` (leading list markers stripped,
whitespace runs collapsed), discarding entries that become empty. -/
theorem c4_line_fallback (reply : String)
    (h1 : tasksFromJsonText (jsTrim reply) = [])
    (h2 : ∀ sub, bracketSpan (jsTrim reply) = some sub → tasksFromJsonText sub = []) :
    extractTasks reply =
      ((splitNl (jsTrim reply)).map normalizeTask).filter (fun s => s ≠ "") := by
  by_cases htrim : jsTrim reply = ""
  · rw [extractTasks, htrim]
    rfl
  · cases hbs : bracketSpan (jsTrim reply) with
    | none =>
      rw [extractTasks]
      simp [htrim, h1, hbs]
    | some sub =>
      rw [extractTasks]
      simp [htrim, h1, hbs, h2 sub hbs]

/-- C4 witness: a non-JSON multi-line reply with list markers and a blank
line. -/
theorem c4_witness :
    tasksFromJsonText (jsTrim "- 早起 跑步\n\n(2) 看 书") = [] ∧
    extractTasks "- 早起 跑步\n\n(2) 看 书" = ["早起 跑步", "看 书"] :=
  ⟨rfl,
    (c4_line_fallback "- 早起 跑步\n\n(2) 看 书" rfl
        (fun _ h => Option.noConfusion h)).trans (by decide)⟩

/-- C5 counterexample: on the reply `'这是建议：\n1. 买菜\n2. 预订机票\n'`
the pipeline does not return the two-element list the claim states. -/
theorem c5_counterexample :
    finalTasks "这是建议：\n1. 买菜\n2. 预订机票\n" ≠ ["买菜", "预订机票"] := by
  decide

/-- C5 (amended): the prose header line `这是建议：` does not normalize to
the empty string, so the line-splitting fallback keeps it — the output is
the three-element list. -/
theorem c5_amended :
    finalTasks "这是建议：\n1. 买菜\n2. 预订机票\n" = ["这是建议：", "买菜", "预订机票"] := rfl

/-- C6: an absent, non-string, or blank-after-trim prompt, or an
unresolvable API key, yields a 400 `ValidationError` response carrying an
error message — for *every* upstream oracle alike (including a failing
one), which is the pure rendering of "the upstream fetch is never
reached". -/
theorem c6_validation (body : Option Json) (env : Env) (up : Upstream)
    (h : providedField body "prompt" = "" ∨ resolveApiKey body env = "") :
    ∃ msg, onRequestPost body env up = Outcome.resp 400 (RespBody.err msg) := by
  rcases h with h | h
  · refine ⟨"请提供有效的任务描述。", ?_⟩
    simp [onRequestPost, h]
  · by_cases hp : providedField body "prompt" = ""
    · refine ⟨"请提供有效的任务描述。", ?_⟩
      simp [onRequestPost, hp]
    · refine ⟨"请在页面填写 API Key 或配置 DOUBAO_API_KEY。", ?_⟩
      simp [onRequestPost, hp, h]

/-- C6 witness: an unparseable request body (hence no prompt) against an
empty environment, with a failing upstream oracle. -/
theorem c6_witness :
    (providedField none "prompt" = "" ∨
      resolveApiKey none ⟨none, none, none, none⟩ = "") ∧
    ∃ msg, onRequestPost none ⟨none, none, none, none⟩ Upstream.netFail =
      Outcome.resp 400 (RespBody.err msg) :=
  ⟨Or.inl rfl,
    c6_validation none ⟨none, none, none, none⟩ Upstream.netFail (Or.inl rfl)⟩

/-- C7 counterexample: with a valid prompt and key, a network-level
failure of the upstream fetch is *not* surfaced as an error response —
there is no `try` around the `fetch`, so the handler ends in an uncaught
exception rather than in the 502 `UpstreamError` the claim states. -/
theorem c7_counterexample :
    onRequestPost (some (Json.obj [("prompt", Json.str "规划旅行"), ("apiKey", Json.str "key1")]))
        ⟨none, none, none, none⟩ Upstream.netFail = Outcome.exn ∧
    isErrResp (onRequestPost
        (some (Json.obj [("prompt", Json.str "规划旅行"), ("apiKey", Json.str "key1")]))
        ⟨none, none, none, none⟩ Upstream.netFail) = false :=
  ⟨rfl, rfl⟩

/-- C7 (amended): a non-success upstream status yields a 502 whose detail
is the raw upstream body; a body with no usable `choices[0].message.content`
string (including an unparseable body) yields the 502 "empty content"
error carrying the parsed data as detail; but a network-level failure is
not caught and escapes the handler as an exception instead of being
returned as an `UpstreamError` response.  The model consults the upstream
oracle exactly once, so no retry can occur. -/
theorem c7_amended (body : Option Json) (env : Env)
    (hp : providedField body "prompt" ≠ "")
    (hk : resolveApiKey body env ≠ "") :
    (∀ s, onRequestPost body env (Upstream.reply false s) =
        Outcome.resp 502 (RespBody.errText "豆包接口请求失败。" s)) ∧
    (∀ s, getContent (jsonParse s) = none →
        onRequestPost body env (Upstream.reply true s) =
          Outcome.resp 502 (RespBody.errJson "豆包返回内容为空。" (jsonParse s))) ∧
    onRequestPost body env Upstream.netFail = Outcome.exn := by
  refine ⟨fun s => ?_, fun s hc => ?_, ?_⟩
  · simp [onRequestPost, hp, hk]
  · simp [onRequestPost, hp, hk, hc]
  · simp [onRequestPost, hp, hk]

/-- C7 witness: a failing upstream status with a raw diagnostic body. -/
theorem c7_witness :
    providedField (some (Json.obj [("prompt", Json.str "订酒店"), ("apiKey", Json.str "k2")]))
        "prompt" ≠ "" ∧
    resolveApiKey (some (Json.obj [("prompt", Json.str "订酒店"), ("apiKey", Json.str "k2")]))
        ⟨none, none, none, none⟩ ≠ "" ∧
    onRequestPost (some (Json.obj [("prompt", Json.str "订酒店"), ("apiKey", Json.str "k2")]))
        ⟨none, none, none, none⟩ (Upstream.reply false "bad gateway") =
      Outcome.resp 502 (RespBody.errText "豆包接口请求失败。" "bad gateway") :=
  ⟨by decide, by decide,
    (c7_amended (some (Json.obj [("prompt", Json.str "订酒店"), ("apiKey", Json.str "k2")]))
        ⟨none, none, none, none⟩ (by decide) (by decide)).1 "bad gateway"⟩

/-- C8: configuration resolves as an ordered coalesce — the API key is
the caller's trimmed key, else the environment keys; the model is the
caller's trimmed model, else the environment model, else the fixed
default; the base URL is the environment URL else the fixed provider URL,
with every trailing slash stripped before `/chat/completions` is
concatenated (the stripped base never ends in a slash, and what was
removed is exactly a run of slashes). -/
theorem c8_config_resolution (body : Option Json) (env : Env) :
    resolveApiKey body env =
      coalesce [providedField body "apiKey", optStr env.DOUBAO_API_KEY,
        optStr env.ARK_API_KEY] ∧
    resolveModel body env =
      coalesce [providedField body "model", optStr env.DOUBAO_MODEL, DEFAULT_MODEL] ∧
    (∃ k, jsOr (optStr env.DOUBAO_API_BASE_URL) DEFAULT_BASE_URL =
        resolveBaseUrl env ++ String.mk (List.replicate k '/')) ∧
    (∀ c, (resolveBaseUrl env).data.getLast? = some c → c ≠ '/') ∧
    requestUrl env = resolveBaseUrl env ++ "/chat/completions" := by
  refine ⟨jsOr_coalesce _ _ _, jsOr_coalesce _ _ _, ?_, ?_, rfl⟩
  · have hsplit := dropTrailing_append (fun c => c == '/')
      (jsOr (optStr env.DOUBAO_API_BASE_URL) DEFAULT_BASE_URL).data
    have hall : ∀ c ∈ ((jsOr (optStr env.DOUBAO_API_BASE_URL)
        DEFAULT_BASE_URL).data.reverse.takeWhile (fun c => c == '/')).reverse, c = '/' := by
      intro c hc
      have h2 := List.mem_takeWhile_imp (List.mem_reverse.mp hc)
      simpa using h2
    have hrep := List.eq_replicate_of_mem hall
    refine ⟨((jsOr (optStr env.DOUBAO_API_BASE_URL)
        DEFAULT_BASE_URL).data.reverse.takeWhile (fun c => c == '/')).reverse.length, ?_⟩
    rw [hrep] at hsplit
    exact congrArg String.mk hsplit
  · intro c hc
    have h2 := getLast?_dropTrailing_not (fun c => c == '/')
      (jsOr (optStr env.DOUBAO_API_BASE_URL) DEFAULT_BASE_URL).data c hc
    simpa using h2

/-- C8 witness: a base URL configured with trailing slashes is stripped
before the path is appended. -/
theorem c8_witness :
    requestUrl ⟨none, some "https://api.example.cn///", none, none⟩ =
      resolveBaseUrl ⟨none, some "https://api.example.cn///", none, none⟩ ++
        "/chat/completions" ∧
    resolveBaseUrl ⟨none, some "https://api.example.cn///", none, none⟩ =
      "https://api.example.cn" :=
  ⟨(c8_config_resolution none ⟨none, some "https://api.example.cn///", none, none⟩).2.2.2.2,
    by decide⟩

/-- C9: in the task store, after adding a task (fresh id, non-blank text)
and toggling it, the `active` view excludes it and the `done` view
includes it; `handleClearCompleted` keeps exactly the not-done records;
and the `all` view of the cleared list is exactly the original records
that were not done, in their original order (views are pure — the
underlying list is never mutated). -/
theorem c9_store (todos : List Todo) (id input : String) (now : Nat)
    (hFresh : ∀ t ∈ todos, t.id ≠ id) (hInput : jsTrim input ≠ "") :
    (∀ t ∈ visibleTodos TodoFilter.active
        (handleToggle id (handleSubmit input id now todos)), t.id ≠ id) ∧
    (∃ t ∈ visibleTodos TodoFilter.done
        (handleToggle id (handleSubmit input id now todos)), t.id = id) ∧
    (∀ t ∈ handleClearCompleted (handleToggle id (handleSubmit input id now todos)),
        t.done = false) ∧
    (∀ t ∈ handleToggle id (handleSubmit input id now todos), t.done = false →
        t ∈ handleClearCompleted (handleToggle id (handleSubmit input id now todos))) ∧
    visibleTodos TodoFilter.all
        (handleClearCompleted (handleToggle id (handleSubmit input id now todos))) =
      todos.filter (fun t => !t.done) := by
  have hsub : handleSubmit input id now todos =
      { id := id, text := jsTrim input, done := false, createdAt := now } :: todos := by
    rw [handleSubmit]
    simp [hInput]
  have htog : handleToggle id (handleSubmit input id now todos) =
      { id := id, text := jsTrim input, done := true, createdAt := now } :: todos := by
    rw [hsub, handleToggle, List.map_cons,
      map_eq_self_of_mem todos _ (fun t ht => by simp [hFresh t ht])]
    simp
  have hclear : handleClearCompleted (handleToggle id (handleSubmit input id now todos)) =
      todos.filter (fun t => !t.done) := by
    rw [htog, handleClearCompleted, List.filter_cons]
    simp
  refine ⟨?_, ?_, ?_, ?_, ?_⟩
  · intro t ht
    rw [htog, visibleTodos, List.filter_cons] at ht
    simp only [Bool.not_true, if_false] at ht
    exact hFresh t (List.mem_of_mem_filter ht)
  · refine ⟨{ id := id, text := jsTrim input, done := true, createdAt := now }, ?_, rfl⟩
    rw [htog, visibleTodos, List.filter_cons]
    simp
  · intro t ht
    rw [hclear] at ht
    have := List.of_mem_filter ht
    simpa using this
  · intro t ht hdone
    rw [hclear]
    rw [htog] at ht
    rcases List.mem_cons.mp ht with h1 | h1
    · rw [h1] at hdone
      simp at hdone
    · exact List.mem_filter.mpr ⟨h1, by simp [hdone]⟩
  · rw [hclear, visibleTodos]
    exact List.filter_true _

/-- C9 witness: one not-done and one done record, a fresh id and a
blank-padded text. -/
theorem c9_witness :
    (∀ t ∈ ([⟨"a", "洗衣", false, 1⟩, ⟨"b", "扫地", true, 2⟩] : List Todo), t.id ≠ "c") ∧
    jsTrim " 买菜 " ≠ "" ∧
    visibleTodos TodoFilter.all (handleClearCompleted (handleToggle "c"
        (handleSubmit " 买菜 " "c" 9 [⟨"a", "洗衣", false, 1⟩, ⟨"b", "扫地", true, 2⟩]))) =
      [⟨"a", "洗衣", false, 1⟩] :=
  ⟨by decide, by decide,
    ((c9_store [⟨"a", "洗衣", false, 1⟩, ⟨"b", "扫地", true, 2⟩] "c" " 买菜 " 9
        (by decide) (by decide)).2.2.2.2).trans (by decide)⟩

/-- C10 (implicit claim): an accepted suggestion (which, coming from the
cleaned suggestion list, is its own normalization and non-empty) is
compared by exact text equality against the todos already in the list —
a duplicate is silently skipped with no change, a novel one is prepended
as a fresh not-done record; `handleAddAllSuggestions` prepends exactly
the novel ones, in order, each a fresh not-done record. -/
theorem c10_suggestion_merge (todos : List Todo) (freshId : Nat → String) (now : Nat) :
    (∀ task, normalizeSuggestion task = task → task ≠ "" →
      ((task ∈ todos.map (fun t => t.text) →
          handleAddSuggestion todos task freshId now = todos) ∧
       (task ∉ todos.map (fun t => t.text) →
          handleAddSuggestion todos task freshId now =
            { id := freshId 0, text := task, done := false, createdAt := now } :: todos))) ∧
    (∀ suggestions, (∀ s ∈ suggestions, normalizeSuggestion s = s ∧ s ≠ "") →
      handleAddAllSuggestions todos suggestions freshId now =
        mkRecords freshId now 0
          (suggestions.filter
            (fun s => !((todos.map (fun t => t.text)).contains s))) ++ todos) := by
  constructor
  · intro task hnorm hne
    constructor
    · intro hmem
      rcases List.mem_map.mp hmem with ⟨t, ht, he⟩
      have hnall : ¬(∀ x ∈ todos, ¬x.text = task) := fun hall => hall t ht he
      rw [handleAddSuggestion, buildTodos]
      simp [hnorm, hne, List.filter_cons, mkRecords, hnall]
    · intro hmem
      have hall : ∀ x ∈ todos, ¬x.text = task :=
        fun x hx he => hmem (List.mem_map.mpr ⟨x, hx, he⟩)
      rw [handleAddSuggestion, buildTodos]
      simp [hnorm, hne, List.filter_cons, mkRecords]
      rw [if_pos hall]
      simp [mkRecords]
  · intro suggestions h
    have hmap : suggestions.map normalizeSuggestion = suggestions :=
      map_eq_self_of_mem suggestions _ (fun s hs => (h s hs).1)
    have hfil : suggestions.filter (fun s => s ≠ "") = suggestions :=
      List.filter_eq_self.mpr (fun s hs => by simp [(h s hs).2])
    rw [handleAddAllSuggestions, buildTodos, hmap, hfil]
    by_cases hemp : mkRecords freshId now 0
        (suggestions.filter (fun s => !((todos.map (fun t => t.text)).contains s))) = []
    · simp [hemp]
    · simp [hemp]

/-- C10 witness: against a list holding `买菜`, the duplicate suggestion
`买菜` is skipped and the novel suggestion `跑步` is prepended not-done. -/
theorem c10_witness :
    (normalizeSuggestion "跑步" = "跑步" ∧ "跑步" ≠ "") ∧
    handleAddSuggestion [⟨"t1", "买菜", false, 0⟩] "买菜" (fun _ => "n1") 5 =
      [⟨"t1", "买菜", false, 0⟩] ∧
    handleAddSuggestion [⟨"t1", "买菜", false, 0⟩] "跑步" (fun _ => "n1") 5 =
      [⟨"n1", "跑步", false, 5⟩, ⟨"t1", "买菜", false, 0⟩] :=
  ⟨⟨by decide, by decide⟩,
    ((c10_suggestion_merge [⟨"t1", "买菜", false, 0⟩] (fun _ => "n1") 5).1 "买菜"
        (by decide) (by decide)).1 (by decide),
    ((c10_suggestion_merge [⟨"t1", "买菜", false, 0⟩] (fun _ => "n1") 5).1 "跑步"
        (by decide) (by decide)).2 (by decide)⟩

end AiTodo
